import Mathlib

/-!
# A shallow embedding of jQuery.Ellipterrific.js

This file models `src/jquery.ellipterrific.js` (version 0.4): a jQuery
plugin that truncates the text of a fixed-size element to the longest
token prefix that fits, appending an ellipsis marker.

The rendering environment is modelled by a `RenderEnv`: the measured
dimensions of the element are functions of the text it currently holds.
The DOM element itself is reduced to the state the plugin reads and
writes: its text, its computed `overflow` style and its jQuery data
store.  JavaScript numbers that hold array indices are modelled as `Int`
(all index arithmetic in the source stays integral); `undefined`
parameters are modelled with `Option`.

`are_words_fitting_in_element` is stateful in the source (it writes and
then restores the element's text); it is modelled as a state-passing
function returning the measured boolean together with the element state
it leaves behind.  `index_for_best_fit` is instrumented to also return
the list of word arrays passed to the overflow test, one entry per
oracle evaluation in call order, so that oracle-counting properties can
be stated.
-/

/-- Plugin options, mirroring `$.fn.ellipterrific.settings` merged with
the caller's options. -/
structure Options where
  ellipsis_string : String
  split_on_words : Bool
deriving Repr, DecidableEq

/-- The default settings object of the plugin: marker `"…"` and word
splitting. -/
def settings : Options :=
  { ellipsis_string := "…", split_on_words := true }

/-- The measurement side of the DOM.  `innerH`/`innerW` model
`$element.innerHeight()`/`$element.innerWidth()` and `scrollH`/`scrollW`
model `element.scrollHeight`/`element.scrollWidth`, each as a function
of the text the element currently holds (layout is recomputed after
every text change, and the container's CSS size is fixed). -/
structure RenderEnv where
  innerH : String → Int
  innerW : String → Int
  scrollH : String → Int
  scrollW : String → Int

/-- The element state read and written by the overflow test. -/
structure Elem where
  text : String
deriving Repr, DecidableEq

/-- The element state read and written by the plugin body: its text,
its computed `overflow` CSS property, and its jQuery data store. -/
structure ElemState where
  text : String
  cssOverflow : String
  data : List (String × String)
deriving Repr, DecidableEq

/-- Whitespace as used by the JavaScript source (`$.trim` and the
regular expression classes `\s`/`\S`), restricted to the ASCII
whitespace characters that `Char.isWhitespace` recognises. -/
def jsWS (c : Char) : Bool := c.isWhitespace

/-- `$.trim`: strip leading and trailing whitespace. -/
def jsTrim (s : String) : String :=
  ⟨((s.toList.dropWhile jsWS).reverse.dropWhile jsWS).reverse⟩

/-- `text.match(/[\S]+/g)`: the maximal runs of non-whitespace
characters, or `none` for JavaScript's `null` when there is no match. -/
def jsMatchNonWS (s : String) : Option (List String) :=
  let runs := ((s.toList.splitOnP jsWS).filter (fun r => r ≠ [])).map
    (fun r => (⟨r⟩ : String))
  if runs = [] then none else some runs

/-- `text.split("")`: the list of single-character strings. -/
def jsSplitChars (s : String) : List String :=
  s.toList.map (fun c => String.singleton c)

/-- `xs.slice(0, e)` on a JavaScript array: a negative end index counts
from the end of the array, and out-of-range indices are clamped. -/
def jsSlice0 (xs : List String) (e : Int) : List String :=
  if 0 ≤ e then xs.take e.toNat else xs.take ((xs.length : Int) + e).toNat

/-- `words.join(sep)`. -/
def jsJoin (sep : String) (words : List String) : String :=
  String.intercalate sep words

/-- The candidate string drawn into the element by
`are_words_fitting_in_element`: the words joined by a space (word mode)
or concatenated and trimmed (character mode), with the marker
appended. -/
def candidateText (opts : Options) (words : List String) : String :=
  if opts.split_on_words then
    jsJoin " " words ++ opts.ellipsis_string
  else
    jsTrim (jsJoin "" words) ++ opts.ellipsis_string

/-- `are_words_fitting_in_element(element, words)`: draw the candidate
text into the element, read whether it overflows the dimensions the
element had on entry, and restore the element's initial text.  Despite
its name the source function returns whether the words are
*overflowing*.  Returns the measured boolean and the element state left
behind. -/
def are_words_fitting_in_element (env : RenderEnv) (opts : Options)
    (element : Elem) (words : List String) : Bool × Elem :=
  let initial_text := element.text
  let intitial_height := env.innerH element.text
  let initial_width := env.innerW element.text
  let element2 : Elem := { text := candidateText opts words }
  let are_words_overflowing :=
    decide (env.scrollH element2.text > intitial_height) ||
      decide (env.scrollW element2.text > initial_width)
  (are_words_overflowing, { element2 with text := initial_text })

/-- The boolean computed by `are_words_fitting_in_element` when the
element currently holds `ctext`, as a pure oracle over word arrays.
This is what `index_for_best_fit` consumes: since the overflow test
restores the element's text before returning, every test during one
search runs against the same element text. -/
def overflowOracle (env : RenderEnv) (opts : Options) (ctext : String)
    (words : List String) : Bool :=
  (are_words_fitting_in_element env opts { text := ctext } words).1

/-- `index_for_best_fit(element, words, guess, low_bound, high_bound)`,
instrumented: the first component is the source function's return value
(`-1` is the sentinel), the second lists the word arrays passed to the
overflow test, one entry per oracle evaluation in call order.
`Math.ceil(low + (high - low) / 2)` on integers with `high ≥ low`
equals `low + (high - low + 1) / 2` with integer division.  The
`undefined` defaults `low_bound = 0` and `high_bound = words.length - 1`
are applied at the call site in `ellipterrificOne`. -/
def index_for_best_fit (o : List String → Bool) (words : List String) :
    Option Int → Int → Int → Int × List (List String)
  | guess, low_bound, high_bound =>
    if high_bound < low_bound then
      (-1, [])
    else
      let mid := low_bound + (high_bound - low_bound + 1) / 2
      let g := guess.getD mid
      if g = 0 then
        (0, [])
      else
        let is_midpoint_overflowing := o (jsSlice0 words mid)
        let is_above_midpoint_overflowing := o (jsSlice0 words (mid + 1))
        if is_midpoint_overflowing then
          let r := index_for_best_fit o words (some mid) low_bound (mid - 1)
          (r.1, jsSlice0 words mid :: jsSlice0 words (mid + 1) :: r.2)
        else if !is_midpoint_overflowing && !is_above_midpoint_overflowing then
          let r := index_for_best_fit o words (some mid) (mid + 1) high_bound
          (r.1, jsSlice0 words mid :: jsSlice0 words (mid + 1) :: r.2)
        else
          (mid, [jsSlice0 words mid, jsSlice0 words (mid + 1)])
  termination_by _ low_bound high_bound => (high_bound - low_bound + 1).toNat
  decreasing_by
  all_goals (simp only [not_lt] at *; omega)

/-- The tokenization performed by the plugin body:
`$.trim(initial_text).match(/[\S]+/g)` in word mode (which is `null`
when the trimmed text is empty), `$.trim(initial_text).split("")` in
character mode. -/
def tokensOpt (opts : Options) (text : String) : Option (List String) :=
  if opts.split_on_words then
    jsMatchNonWS (jsTrim text)
  else
    some (jsSplitChars (jsTrim text))

/-- One iteration of the `$.each` body of `$.fn.ellipterrific`, for a
single element: returns the final element state together with the list
of oracle evaluations performed.  The guard
`if (!text_words || !text_words.length === 0)` in the source reduces to
the `null` test: `!text_words.length === 0` compares a boolean against
a number and is always false in JavaScript, so only `null` from a
failed word match aborts early. -/
def ellipterrificOne (env : RenderEnv) (opts : Options) (st : ElemState) :
    ElemState × List (List String) :=
  let initial_text := st.text
  match tokensOpt opts initial_text with
  | none => (st, [])
  | some text_words =>
    if st.cssOverflow = "hidden" then
      let st1 : ElemState := { st with cssOverflow := "visible !important" }
      let r := index_for_best_fit (overflowOracle env opts initial_text)
        text_words none 0 ((text_words.length : Int) - 1)
      if r.1 > -1 then
        let text_words_subset := jsSlice0 text_words r.1
        let newText :=
          if opts.split_on_words then
            jsJoin " " text_words_subset ++ opts.ellipsis_string
          else
            jsTrim (jsJoin "" text_words_subset) ++ opts.ellipsis_string
        ({ st1 with
            text := newText
            cssOverflow := "hidden"
            data := ("original text", initial_text) :: st1.data }, r.2)
      else
        ({ st1 with cssOverflow := "hidden" }, r.2)
    else
      (st, [])

/-- The spec's monotonicity precondition on an overflow oracle, phrased
on the prefixes of a fixed token list: if some prefix overflows then so
does the prefix one token longer (hence every longer prefix). -/
def MonotonicOracle (o : List String → Bool) (tw : List String) : Prop :=
  ∀ k, k < tw.length → o (tw.take k) = true → o (tw.take (k + 1)) = true

instance (o : List String → Bool) (tw : List String) :
    Decidable (MonotonicOracle o tw) :=
  decidable_of_iff
    (∀ k < tw.length, o (tw.take k) = true → o (tw.take (k + 1)) = true)
    Iff.rfl

/-- The argument triple of one call of `index_for_best_fit`. -/
structure FitCall where
  guess : Option Int
  low : Int
  high : Int
deriving Repr, DecidableEq

/-- The midpoint `Math.ceil(low + (high - low) / 2)` the source computes
for a window. -/
def midOf (s : FitCall) : Int := s.low + (s.high - s.low + 1) / 2

/-- One recursive call of `index_for_best_fit`: relates the arguments of
a call to the arguments of the recursive call it makes, following the
source's branch conditions. -/
def FitStep (o : List String → Bool) (words : List String)
    (s t : FitCall) : Prop :=
  ¬s.high < s.low ∧ s.guess.getD (midOf s) ≠ 0 ∧
    ((o (jsSlice0 words (midOf s)) = true ∧
        t = ⟨some (midOf s), s.low, midOf s - 1⟩) ∨
      (o (jsSlice0 words (midOf s)) = false ∧
        o (jsSlice0 words (midOf s + 1)) = false ∧
        t = ⟨some (midOf s), midOf s + 1, s.high⟩))

instance (o : List String → Bool) (words : List String) (s t : FitCall) :
    Decidable (FitStep o words s t) := by
  unfold FitStep; infer_instance

/-- The calls of `index_for_best_fit` reachable from the plugin's
initial call `index_for_best_fit(selected_elm, text_words)`, whose
`undefined` bounds default to `0` and `words.length - 1`. -/
inductive ReachesFit (o : List String → Bool) (words : List String) :
    FitCall → Prop
  | init : ReachesFit o words ⟨none, 0, (words.length : Int) - 1⟩
  | step {s t : FitCall} : ReachesFit o words s → FitStep o words s t →
      ReachesFit o words t

/-! ## Concrete instances used in counterexamples and witnesses -/

/-- A rendering environment in which nothing ever overflows. -/
def envNever : RenderEnv :=
  { innerH := fun _ => 1000, innerW := fun _ => 1000,
    scrollH := fun _ => 0, scrollW := fun _ => 0 }

/-- A rendering environment in which every candidate overflows. -/
def envAlways : RenderEnv :=
  { innerH := fun _ => 0, innerW := fun _ => 0,
    scrollH := fun _ => 1, scrollW := fun _ => 1 }

/-- The oracle that never reports overflow. -/
def oracleNever : List String → Bool := fun _ => false

/-- The oracle that always reports overflow. -/
def oracleAlways : List String → Bool := fun _ => true

/-- The oracle that reports overflow exactly when at least two words are
present. -/
def oracleAtTwo : List String → Bool := fun ws => decide (2 ≤ ws.length)

/-- A hidden-overflow element holding the single word `"Hi"`. -/
def stHi : ElemState := { text := "Hi", cssOverflow := "hidden", data := [] }

/-- A hidden-overflow element holding two words. -/
def stAB : ElemState := { text := "a b", cssOverflow := "hidden", data := [] }

/-- Another hidden-overflow element holding two words. -/
def stXY : ElemState := { text := "x y", cssOverflow := "hidden", data := [] }

/-- A hidden-overflow element holding only whitespace. -/
def stWS : ElemState := { text := "   ", cssOverflow := "hidden", data := [] }

/-- An element whose overflow style is not `"hidden"`. -/
def stVis : ElemState :=
  { text := "Hi", cssOverflow := "visible", data := [] }

/-! ## Helper lemmas about the fit search -/

lemma jsSlice0_nonneg (xs : List String) (e : Int) (h : 0 ≤ e) :
    jsSlice0 xs e = xs.take e.toNat := by
  simp [jsSlice0, h]

/-- An exhausted window returns the sentinel before any oracle call. -/
lemma bestFit_exhausted (o : List String → Bool) (w : List String)
    (g : Option Int) (low high : Int) (h : high < low) :
    index_for_best_fit o w g low high = (-1, []) := by
  rw [index_for_best_fit]; simp [h]

/-- A zero guess (after defaulting) returns 0 before any oracle call. -/
lemma bestFit_guess_zero (o : List String → Bool) (w : List String)
    (g : Option Int) (low high : Int) (h : ¬high < low)
    (hg : g.getD (low + (high - low + 1) / 2) = 0) :
    index_for_best_fit o w g low high = (0, []) := by
  rw [index_for_best_fit]; simp [h, hg]

/-- On a non-exhausted window, an `undefined` guess behaves as if the
midpoint had been passed. -/
lemma bestFit_none_eq (o : List String → Bool) (w : List String)
    (low high : Int) (h : ¬high < low) :
    index_for_best_fit o w none low high =
      index_for_best_fit o w (some (low + (high - low + 1) / 2)) low high := by
  rw [index_for_best_fit, index_for_best_fit]; simp [h]

/-- Under a monotonic oracle, if the full token list does not overflow
then no prefix overflows. -/
lemma mono_all_false (o : List String → Bool) (tw : List String)
    (hmono : MonotonicOracle o tw) (hfit : o (tw.take tw.length) = false) :
    ∀ k, k ≤ tw.length → o (tw.take k) = false := by
  have chain : ∀ d k, k + d = tw.length → o (tw.take k) = true →
      o (tw.take tw.length) = true := by
    intro d
    induction d with
    | zero =>
      intro k hk ht
      have hkl : k = tw.length := by omega
      rw [hkl] at ht; exact ht
    | succ d ih =>
      intro k hk ht
      exact ih (k + 1) (by omega) (hmono k (by omega) ht)
  intro k hk
  cases h : o (tw.take k) with
  | false => rfl
  | true =>
    have := chain (tw.length - k) k (by omega) h
    rw [hfit] at this
    exact absurd this (by simp)

/-- If no prefix of the token list overflows, every reachable fit-search
call (exhausted, or carrying a nonzero defaulted guess) returns the
sentinel. -/
lemma bestFit_of_allFalse (o : List String → Bool) (w : List String)
    (hall : ∀ k : Nat, k ≤ w.length → o (w.take k) = false) :
    ∀ (g : Option Int) (low high : Int), 0 ≤ low →
      high ≤ (w.length : Int) - 1 →
      (high < low ∨ g.getD (low + (high - low + 1) / 2) ≠ 0) →
      (index_for_best_fit o w g low high).1 = -1 := by
  intro g low high
  induction g, low, high using index_for_best_fit.induct o w with
  | case1 guess low high h =>
    intro _ _ _
    rw [bestFit_exhausted o w guess low high h]
  | case2 guess low high h mid g hg0 =>
    intro _ _ hside
    rcases hside with hlt | hne
    · exact absurd hlt h
    · exact absurd hg0 hne
  | case3 guess low high h mid g hgne imo himo ih =>
    intro hlow hhigh _
    -- the midpoint prefix cannot overflow: contradiction with `hall`
    have hmdef : mid = low + (high - low + 1) / 2 := rfl
    have h1 : o (jsSlice0 w mid) = true := himo
    rw [jsSlice0_nonneg w mid (by omega)] at h1
    rw [hall mid.toNat (by omega)] at h1
    exact absurd h1 (by simp)
  | case4 guess low high h mid g hgne imo iao hnm hboth ih =>
    intro hlow hhigh _
    have hmdef : mid = low + (high - low + 1) / 2 := rfl
    have him : o (jsSlice0 w mid) = false := by
      have := hnm
      simp only [Bool.not_eq_true] at this
      exact this
    have hia : o (jsSlice0 w (mid + 1)) = false := by
      have hb : (!imo && !iao) = true := hboth
      have : imo = false := him
      rw [this] at hb
      simpa using hb
    rw [index_for_best_fit]
    simp only [if_neg h, if_neg hgne, him, hia]
    simp only [Bool.false_eq_true, if_false, Bool.not_false, Bool.and_self,
      if_true]
    exact ih (by omega) hhigh (by simp only [Option.getD_some]; omega)
  | case5 guess low high h mid g hgne imo iao hnm hnboth =>
    intro hlow hhigh _
    -- the above-midpoint prefix cannot overflow: contradiction with `hall`
    have hmdef : mid = low + (high - low + 1) / 2 := rfl
    have him : imo = false := by
      have := hnm
      simp only [Bool.not_eq_true] at this
      exact this
    have hia : o (jsSlice0 w (mid + 1)) = true := by
      have hb : ¬(!imo && !iao) = true := hnboth
      rw [him] at hb
      have : iao = true := by revert hb; cases iao <;> simp
      exact this
    rw [jsSlice0_nonneg w (mid + 1) (by omega)] at hia
    rw [hall (mid + 1).toNat (by omega)] at hia
    exact absurd hia (by simp)

/-- Any non-sentinel result `k` of a fit-search call with nonnegative
lower bound and nonzero (defaulted) guess is an exact boundary: prefix
`k` does not overflow and prefix `k + 1` does. -/
lemma bestFit_boundary (o : List String → Bool) (w : List String) :
    ∀ (g : Option Int) (low high : Int), ∀ k : Int, 0 ≤ low →
      (high < low ∨ g.getD (low + (high - low + 1) / 2) ≠ 0) →
      (index_for_best_fit o w g low high).1 = k → k ≠ -1 →
      0 ≤ k ∧ o (w.take k.toNat) = false ∧
        o (w.take (k.toNat + 1)) = true := by
  intro g low high
  induction g, low, high using index_for_best_fit.induct o w with
  | case1 guess low high h =>
    intro k _ _ hk hne
    rw [bestFit_exhausted o w guess low high h] at hk
    exact absurd hk.symm hne
  | case2 guess low high h mid g hg0 =>
    intro k _ hside _ _
    rcases hside with hlt | hne
    · exact absurd hlt h
    · exact absurd hg0 hne
  | case3 guess low high h mid g hgne imo himo ih =>
    intro k hlow _ hk hne
    have hmdef : mid = low + (high - low + 1) / 2 := rfl
    have himo' : o (jsSlice0 w (low + (high - low + 1) / 2)) = true := himo
    rw [index_for_best_fit] at hk
    simp only [if_neg h, if_neg hgne, himo', if_true] at hk
    exact ih k hlow (by simp only [Option.getD_some]; omega) hk hne
  | case4 guess low high h mid g hgne imo iao hnm hboth ih =>
    intro k hlow _ hk hne
    have hmdef : mid = low + (high - low + 1) / 2 := rfl
    have him : o (jsSlice0 w (low + (high - low + 1) / 2)) = false := by
      have := hnm
      simp only [Bool.not_eq_true] at this
      exact this
    have hia : o (jsSlice0 w (low + (high - low + 1) / 2 + 1)) = false := by
      have hb : (!imo && !iao) = true := hboth
      have himo0 : imo = false := him
      rw [himo0] at hb
      simpa using hb
    rw [index_for_best_fit] at hk
    simp only [if_neg h, if_neg hgne, him, hia, Bool.false_eq_true, if_false,
      Bool.not_false, Bool.and_self, if_true] at hk
    exact ih k (by omega) (by simp only [Option.getD_some]; omega) hk hne
  | case5 guess low high h mid g hgne imo iao hnm hnboth =>
    intro k hlow _ hk _
    have hmdef : mid = low + (high - low + 1) / 2 := rfl
    have him : o (jsSlice0 w (low + (high - low + 1) / 2)) = false := by
      have := hnm
      simp only [Bool.not_eq_true] at this
      exact this
    have hia : o (jsSlice0 w (low + (high - low + 1) / 2 + 1)) = true := by
      have hb : ¬(!imo && !iao) = true := hnboth
      have himo0 : imo = false := him
      rw [himo0] at hb
      have : iao = true := by revert hb; cases iao <;> simp
      exact this
    rw [index_for_best_fit] at hk
    simp only [if_neg h, if_neg hgne, him, hia, Bool.false_eq_true, if_false,
      Bool.not_false, Bool.not_true, Bool.and_false, if_true] at hk
    subst hk
    refine ⟨by omega, ?_, ?_⟩
    · rw [jsSlice0_nonneg w _ (by omega)] at him
      exact him
    · rw [jsSlice0_nonneg w _ (by omega)] at hia
      have : (low + (high - low + 1) / 2 + 1).toNat =
          (low + (high - low + 1) / 2).toNat + 1 := by omega
      rw [this] at hia
      exact hia

/-- Oracle-evaluation bound for one call of the fit search: two
evaluations per step, and the window at least halves each step. -/
lemma bestFit_calls_bound (o : List String → Bool) (w : List String) :
    ∀ (g : Option Int) (low high : Int),
      (index_for_best_fit o w g low high).2.length ≤
        2 * (Nat.log 2 (high - low + 1).toNat + 1) := by
  intro g low high
  induction g, low, high using index_for_best_fit.induct o w with
  | case1 guess low high h =>
    rw [bestFit_exhausted o w guess low high h]; simp
  | case2 guess low high h mid g hg0 =>
    rw [bestFit_guess_zero o w guess low high h hg0]; simp
  | case3 guess low high h mid g hgne imo himo ih =>
    have hmdef : mid = low + (high - low + 1) / 2 := rfl
    have himo' : o (jsSlice0 w (low + (high - low + 1) / 2)) = true := himo
    rw [index_for_best_fit]
    simp only [if_neg h, if_neg hgne, himo', if_true, List.length_cons]
    rcases eq_or_lt_of_le (not_lt.mp h) with heq | hlt
    · -- one-element window: the recursive window is exhausted
      have hex : low + (low - low + 1) / 2 - 1 < low := by omega
      subst heq
      rw [bestFit_exhausted o w _ _ _ (by omega)]
      simp [Nat.log_one_right]
    · -- window of at least two: the window halves
      have hs2 : 2 ≤ (high - low + 1).toNat := by omega
      have hchild : (low + (high - low + 1) / 2 - 1 - low + 1).toNat ≤
          (high - low + 1).toNat / 2 := by omega
      have hlog : Nat.log 2 (low + (high - low + 1) / 2 - 1 - low + 1).toNat ≤
          Nat.log 2 (high - low + 1).toNat - 1 := by
        calc Nat.log 2 (low + (high - low + 1) / 2 - 1 - low + 1).toNat ≤
            Nat.log 2 ((high - low + 1).toNat / 2) := Nat.log_mono_right hchild
          _ = Nat.log 2 (high - low + 1).toNat - 1 := Nat.log_div_base 2 _
      have hpos : 0 < Nat.log 2 (high - low + 1).toNat :=
        Nat.log_pos (by norm_num) hs2
      have ih' : (index_for_best_fit o w
          (some (low + (high - low + 1) / 2)) low
          (low + (high - low + 1) / 2 - 1)).2.length ≤
          2 * (Nat.log 2
            (low + (high - low + 1) / 2 - 1 - low + 1).toNat + 1) := ih
      omega
  | case4 guess low high h mid g hgne imo iao hnm hboth ih =>
    have hmdef : mid = low + (high - low + 1) / 2 := rfl
    have him : o (jsSlice0 w (low + (high - low + 1) / 2)) = false := by
      have := hnm
      simp only [Bool.not_eq_true] at this
      exact this
    have hia : o (jsSlice0 w (low + (high - low + 1) / 2 + 1)) = false := by
      have hb : (!imo && !iao) = true := hboth
      have himo0 : imo = false := him
      rw [himo0] at hb
      simpa using hb
    rw [index_for_best_fit]
    simp only [if_neg h, if_neg hgne, him, hia, Bool.false_eq_true, if_false,
      Bool.not_false, Bool.and_self, if_true, List.length_cons]
    rcases eq_or_lt_of_le (not_lt.mp h) with heq | hlt
    · subst heq
      rw [bestFit_exhausted o w _ _ _ (by omega)]
      simp [Nat.log_one_right]
    · have hs2 : 2 ≤ (high - low + 1).toNat := by omega
      have hchild : (high - (low + (high - low + 1) / 2 + 1) + 1).toNat ≤
          (high - low + 1).toNat / 2 := by omega
      have hlog : Nat.log 2
          (high - (low + (high - low + 1) / 2 + 1) + 1).toNat ≤
          Nat.log 2 (high - low + 1).toNat - 1 := by
        calc Nat.log 2 (high - (low + (high - low + 1) / 2 + 1) + 1).toNat ≤
            Nat.log 2 ((high - low + 1).toNat / 2) := Nat.log_mono_right hchild
          _ = Nat.log 2 (high - low + 1).toNat - 1 := Nat.log_div_base 2 _
      have hpos : 0 < Nat.log 2 (high - low + 1).toNat :=
        Nat.log_pos (by norm_num) hs2
      have ih' : (index_for_best_fit o w
          (some (low + (high - low + 1) / 2))
          (low + (high - low + 1) / 2 + 1) high).2.length ≤
          2 * (Nat.log 2
            (high - (low + (high - low + 1) / 2 + 1) + 1).toNat + 1) := ih
      omega
  | case5 guess low high h mid g hgne imo iao hnm hnboth =>
    have him : o (jsSlice0 w (low + (high - low + 1) / 2)) = false := by
      have := hnm
      simp only [Bool.not_eq_true] at this
      exact this
    have hia : o (jsSlice0 w (low + (high - low + 1) / 2 + 1)) = true := by
      have hb : ¬(!imo && !iao) = true := hnboth
      have himo0 : imo = false := him
      rw [himo0] at hb
      have : iao = true := by revert hb; cases iao <;> simp
      exact this
    rw [index_for_best_fit]
    simp only [if_neg h, if_neg hgne, him, hia, Bool.false_eq_true, if_false,
      Bool.not_false, Bool.not_true, Bool.and_false, if_true]
    simp

/-- A recursive step of the fit search, taken from a call satisfying the
window invariant, shrinks the window (it stays inside the old one and
gets strictly smaller) and preserves the invariant. -/
lemma fitStep_props (o : List String → Bool) (w : List String)
    {s t : FitCall}
    (hinv : 0 ≤ s.low ∧ s.low ≤ s.high + 1 ∧ s.high + 1 ≤ (w.length : Int))
    (hst : FitStep o w s t) :
    (s.low ≤ t.low ∧ t.high ≤ s.high ∧
      t.high - t.low < s.high - s.low) ∧
    (0 ≤ t.low ∧ t.low ≤ t.high + 1 ∧ t.high + 1 ≤ (w.length : Int)) := by
  obtain ⟨hns, hg, hcase⟩ := hst
  rcases hcase with ⟨_, rfl⟩ | ⟨_, _, rfl⟩ <;>
    dsimp only [midOf] at * <;>
    exact ⟨⟨by omega, by omega, by omega⟩, by omega, by omega, by omega⟩

/-- The window invariant holds for every reachable fit-search call. -/
lemma reaches_inv (o : List String → Bool) (w : List String) (s : FitCall)
    (hs : ReachesFit o w s) :
    0 ≤ s.low ∧ s.low ≤ s.high + 1 ∧ s.high + 1 ≤ (w.length : Int) := by
  induction hs with
  | init =>
    show 0 ≤ (0 : Int) ∧ (0 : Int) ≤ ((w.length : Int) - 1) + 1 ∧
      ((w.length : Int) - 1) + 1 ≤ (w.length : Int)
    omega
  | step hr hst ih => exact (fitStep_props o w ih hst).2

/-- The plugin body is a no-op when the word match returns `null`. -/
lemma ellipterrificOne_none (env : RenderEnv) (opts : Options)
    (st : ElemState) (htw : tokensOpt opts st.text = none) :
    ellipterrificOne env opts st = (st, []) := by
  simp [ellipterrificOne, htw]

/-- The plugin body is a no-op when the element's overflow style is not
`"hidden"`. -/
lemma ellipterrificOne_notHidden (env : RenderEnv) (opts : Options)
    (st : ElemState) (h : ¬st.cssOverflow = "hidden") :
    ellipterrificOne env opts st = (st, []) := by
  cases htw : tokensOpt opts st.text <;> simp [ellipterrificOne, htw, h]

/-- When the search returns the sentinel, the plugin restores the
overflow style and leaves everything else untouched. -/
lemma ellipterrificOne_sentinel (env : RenderEnv) (opts : Options)
    (st : ElemState) (tw : List String)
    (htw : tokensOpt opts st.text = some tw)
    (hcss : st.cssOverflow = "hidden")
    (hsent : (index_for_best_fit (overflowOracle env opts st.text) tw
      none 0 ((tw.length : Int) - 1)).1 = -1) :
    ellipterrificOne env opts st =
      ({ st with cssOverflow := "hidden" },
        (index_for_best_fit (overflowOracle env opts st.text) tw
          none 0 ((tw.length : Int) - 1)).2) := by
  simp [ellipterrificOne, htw, hcss, hsent]

/-- When the search returns a valid index, the plugin displays the
corresponding prefix with the marker appended. -/
lemma ellipterrificOne_trunc (env : RenderEnv) (opts : Options)
    (st : ElemState) (tw : List String)
    (htw : tokensOpt opts st.text = some tw)
    (hcss : st.cssOverflow = "hidden")
    (hpos : (index_for_best_fit (overflowOracle env opts st.text) tw
      none 0 ((tw.length : Int) - 1)).1 > -1) :
    (ellipterrificOne env opts st).1.text =
      (if opts.split_on_words then
        jsJoin " " (jsSlice0 tw
          (index_for_best_fit (overflowOracle env opts st.text) tw
            none 0 ((tw.length : Int) - 1)).1) ++ opts.ellipsis_string
      else
        jsTrim (jsJoin "" (jsSlice0 tw
          (index_for_best_fit (overflowOracle env opts st.text) tw
            none 0 ((tw.length : Int) - 1)).1)) ++ opts.ellipsis_string) := by
  simp [ellipterrificOne, htw, hcss, hpos]

/-! ## The claims -/

/-- C9: `are_words_fitting_in_element` restores the element's text
before returning: the element state it leaves behind carries exactly the
text it was given, for every environment, option set, element state and
word list. -/
theorem overflow_test_restores_text (env : RenderEnv) (opts : Options)
    (element : Elem) (words : List String) :
    (are_words_fitting_in_element env opts element words).2.text =
      element.text := rfl

/-- C10: when the element's computed overflow style is not `"hidden"`,
the plugin leaves the element state entirely unchanged (text, style and
stored data) and performs no overflow tests. -/
theorem noop_when_not_hidden (env : RenderEnv) (opts : Options)
    (st : ElemState) (h : st.cssOverflow ≠ "hidden") :
    (ellipterrificOne env opts st).1 = st ∧
      (ellipterrificOne env opts st).2 = [] := by
  rw [ellipterrificOne_notHidden env opts st h]
  exact ⟨rfl, rfl⟩

/-- Witness for C10 at a concrete element with `overflow: visible`. -/
theorem noop_when_not_hidden_witness :
    stVis.cssOverflow ≠ "hidden" ∧
    (ellipterrificOne envNever settings stVis).1 = stVis ∧
      (ellipterrificOne envNever settings stVis).2 = [] :=
  ⟨by decide, noop_when_not_hidden envNever settings stVis (by decide)⟩

/-- C7: every fit-search call reachable from the plugin's initial call
(window `0 .. len - 1`) satisfies `0 ≤ low ≤ high + 1 ≤ len(tokens)`,
and every recursive step taken from a reachable call keeps the window
inside the old one and strictly shrinks it. -/
theorem reachable_window_invariant (o : List String → Bool)
    (w : List String) (s : FitCall) (hs : ReachesFit o w s) :
    (0 ≤ s.low ∧ s.low ≤ s.high + 1 ∧ s.high + 1 ≤ (w.length : Int)) ∧
    ∀ t, FitStep o w s t →
      s.low ≤ t.low ∧ t.high ≤ s.high ∧
        t.high - t.low < s.high - s.low :=
  ⟨reaches_inv o w s hs,
    fun _ ht => (fitStep_props o w (reaches_inv o w s hs) ht).1⟩

/-- Witness for C7 at the initial call on a two-token list. -/
theorem reachable_window_invariant_witness :
    0 ≤ (FitCall.mk none 0 (((["a", "b"] : List String).length : Int) - 1)).low ∧
    (FitCall.mk none 0 (((["a", "b"] : List String).length : Int) - 1)).low ≤
      (FitCall.mk none 0 (((["a", "b"] : List String).length : Int) - 1)).high + 1 ∧
    (FitCall.mk none 0 (((["a", "b"] : List String).length : Int) - 1)).high + 1 ≤
      (((["a", "b"] : List String).length : Int)) :=
  (reachable_window_invariant oracleAlways ["a", "b"] _ ReachesFit.init).1

/-- C8: the fit search is total (it is defined by well-founded recursion
on the window size, so it terminates on every input), and the plugin's
initial call on `n ≥ 1` tokens performs at most
`2 * (⌊log₂ n⌋ + 1) ≤ 2 * ⌈log₂ n⌉ + O(1)` oracle evaluations: two per
recursive step, with the window at least halving each step. -/
theorem fit_search_oracle_call_bound (o : List String → Bool)
    (w : List String) (h : 1 ≤ w.length) :
    (index_for_best_fit o w none 0 ((w.length : Int) - 1)).2.length ≤
      2 * (Nat.log 2 w.length + 1) := by
  have hb := bestFit_calls_bound o w none 0 ((w.length : Int) - 1)
  have he : (((w.length : Int) - 1) - 0 + 1).toNat = w.length := by omega
  rwa [he] at hb

/-- Witness for C8 on a two-token list under the always-overflow
oracle. -/
theorem fit_search_oracle_call_bound_witness :
    1 ≤ (["a", "b"] : List String).length ∧
    (index_for_best_fit oracleAlways ["a", "b"] none 0
      (((["a", "b"] : List String).length : Int) - 1)).2.length ≤
      2 * (Nat.log 2 (["a", "b"] : List String).length + 1) :=
  ⟨by decide, fit_search_oracle_call_bound oracleAlways ["a", "b"] (by decide)⟩

/-- C4: a fit-search call whose window is exhausted (`high < low`)
returns the sentinel `-1` with no oracle evaluations, and the plugin,
receiving the sentinel, leaves the element's text unchanged. -/
theorem exhausted_window_sentinel_noop :
    (∀ (o : List String → Bool) (w : List String) (g : Option Int)
      (low high : Int), high < low →
        index_for_best_fit o w g low high = (-1, [])) ∧
    (∀ (env : RenderEnv) (opts : Options) (st : ElemState)
      (tw : List String), tokensOpt opts st.text = some tw →
      (index_for_best_fit (overflowOracle env opts st.text) tw none 0
        ((tw.length : Int) - 1)).1 = -1 →
      (ellipterrificOne env opts st).1.text = st.text) := by
  constructor
  · exact fun o w g low high h => bestFit_exhausted o w g low high h
  · intro env opts st tw htw hsent
    by_cases hcss : st.cssOverflow = "hidden"
    · rw [ellipterrificOne_sentinel env opts st tw htw hcss hsent]
    · rw [ellipterrificOne_notHidden env opts st hcss]

/-- Witness for C4: a concrete exhausted window, and a concrete run in
which nothing overflows so the initial search is exhausted and the text
survives unchanged. -/
theorem exhausted_window_sentinel_noop_witness :
    ((3 : Int) < 5) ∧
    index_for_best_fit oracleAlways ["a"] none 5 3 = (-1, []) ∧
    tokensOpt settings stXY.text = some ["x", "y"] ∧
    (ellipterrificOne envNever settings stXY).1.text = stXY.text := by
  have htw : tokensOpt settings stXY.text = some ["x", "y"] := by decide
  have hall : ∀ k : Nat, k ≤ (["x", "y"] : List String).length →
      overflowOracle envNever settings stXY.text
        ((["x", "y"] : List String).take k) = false := by decide
  have hsent : (index_for_best_fit
      (overflowOracle envNever settings stXY.text) ["x", "y"] none 0
      (((["x", "y"] : List String).length : Int) - 1)).1 = -1 := by
    rw [bestFit_none_eq _ _ 0 _ (by norm_num)]
    exact bestFit_of_allFalse _ _ hall _ 0 _ (by norm_num) (by norm_num)
      (by decide)
  exact ⟨by decide,
    exhausted_window_sentinel_noop.1 oracleAlways ["a"] none 5 3 (by decide),
    htw,
    exhausted_window_sentinel_noop.2 envNever settings stXY ["x", "y"]
      htw hsent⟩

/-- C3 (amended): the early return of the search is keyed to the guess
parameter, which coincides with the computed midpoint only where the
guess is defaulted, i.e. in the initial call: whenever a call's
(defaulted) guess is `0` and its window is not exhausted, the search
returns `0` immediately, with no oracle evaluations.  A recursive call
with computed midpoint `0` but nonzero guess does evaluate the oracle
(see the counterexample). -/
theorem guess_zero_returns_immediately (o : List String → Bool)
    (w : List String) (g : Option Int) (low high : Int)
    (h : ¬high < low)
    (hg : g.getD (low + (high - low + 1) / 2) = 0) :
    index_for_best_fit o w g low high = (0, []) :=
  bestFit_guess_zero o w g low high h hg

/-- Witness for C3 (amended) at a concrete call with guess `0`. -/
theorem guess_zero_returns_immediately_witness :
    ¬(5 : Int) < 0 ∧
    (some (0 : Int)).getD (0 + ((5 : Int) - 0 + 1) / 2) = 0 ∧
    index_for_best_fit oracleAlways ["a"] (some 0) 0 5 = (0, []) :=
  ⟨by decide, by decide,
    guess_zero_returns_immediately oracleAlways ["a"] (some 0) 0 5
      (by decide) (by decide)⟩

/-- C3 fails as stated: the recursive call with window `(0, 0)` and
guess `1` is reachable (two tokens, everything overflows); its computed
midpoint is `0`, yet it does not return `0` with no oracle evaluations —
it evaluates the oracle twice and returns the sentinel `-1`. -/
theorem mid_zero_step_still_evaluates :
    ReachesFit oracleAlways ["a", "b"] ⟨some 1, 0, 0⟩ ∧
    midOf ⟨some 1, 0, 0⟩ = 0 ∧
    index_for_best_fit oracleAlways ["a", "b"] (some 1) 0 0 ≠ (0, []) := by
  have hstep : FitStep oracleAlways ["a", "b"]
      ⟨none, 0, (((["a", "b"] : List String).length : Int) - 1)⟩
      ⟨some 1, 0, 0⟩ := by decide
  have heval : index_for_best_fit oracleAlways ["a", "b"] (some 1) 0 0 =
      (-1, [[], ["a"]]) := by
    rw [index_for_best_fit]
    norm_num [jsSlice0, oracleAlways]
    rw [bestFit_exhausted oracleAlways ["a", "b"] (some 0) 0 (-1)
      (by norm_num)]
    exact ⟨rfl, rfl⟩
  refine ⟨ReachesFit.step ReachesFit.init hstep, by decide, ?_⟩
  rw [heval]
  decide

/-- C5: when the input text is empty or whitespace-only (so that
tokenization yields no tokens), the plugin changes nothing — in word
mode the word match is `null` and the body aborts; in character mode the
token list is empty, so the search window `0 .. -1` is exhausted and no
oracle evaluation or text change happens.  This holds in both modes and
for any overflow style. -/
theorem noop_on_empty_input (env : RenderEnv) (opts : Options)
    (st : ElemState) (h : jsTrim st.text = "") :
    (ellipterrificOne env opts st).1 = st ∧
      (ellipterrificOne env opts st).2 = [] := by
  by_cases hm : opts.split_on_words = true
  · have htw : tokensOpt opts st.text = none := by
      unfold tokensOpt
      rw [if_pos hm, h]
      decide
    rw [ellipterrificOne_none env opts st htw]
    exact ⟨rfl, rfl⟩
  · have htw : tokensOpt opts st.text = some [] := by
      unfold tokensOpt
      rw [if_neg hm, h]
      decide
    by_cases hcss : st.cssOverflow = "hidden"
    · have hex : index_for_best_fit (overflowOracle env opts st.text)
          ([] : List String) none 0 ((([] : List String).length : Int) - 1) =
          (-1, []) :=
        bestFit_exhausted _ _ _ _ _ (by norm_num)
      have hsent : (index_for_best_fit (overflowOracle env opts st.text)
          ([] : List String) none 0
          ((([] : List String).length : Int) - 1)).1 = -1 := by
        rw [hex]
      rw [ellipterrificOne_sentinel env opts st [] htw hcss hsent]
      constructor
      · show ({ st with cssOverflow := "hidden" } : ElemState) = st
        rw [← hcss]
      · show (index_for_best_fit (overflowOracle env opts st.text)
          ([] : List String) none 0
          ((([] : List String).length : Int) - 1)).2 = []
        rw [hex]
    · rw [ellipterrificOne_notHidden env opts st hcss]
      exact ⟨rfl, rfl⟩

/-- Witness for C5 at a concrete whitespace-only element. -/
theorem noop_on_empty_input_witness :
    jsTrim stWS.text = "" ∧
    (ellipterrificOne envNever settings stWS).1 = stWS ∧
      (ellipterrificOne envNever settings stWS).2 = [] :=
  ⟨by decide, noop_on_empty_input envNever settings stWS (by decide)⟩

/-- C6: whenever the fit search returns `k` with `0 ≤ k < len(tokens)`
(truncation occurs), the displayed text ends exactly with the configured
marker string (it is some prefix text with the marker appended), in both
word mode and character mode. -/
theorem truncation_appends_marker (env : RenderEnv) (opts : Options)
    (st : ElemState) (tw : List String)
    (htw : tokensOpt opts st.text = some tw)
    (hcss : st.cssOverflow = "hidden") (k : Int)
    (hk : (index_for_best_fit (overflowOracle env opts st.text) tw none 0
      ((tw.length : Int) - 1)).1 = k)
    (h0 : 0 ≤ k) (hlen : k < (tw.length : Int)) :
    ∃ p, (ellipterrificOne env opts st).1.text =
      p ++ opts.ellipsis_string := by
  have hpos : (index_for_best_fit (overflowOracle env opts st.text) tw
      none 0 ((tw.length : Int) - 1)).1 > -1 := by
    rw [hk]; omega
  rw [ellipterrificOne_trunc env opts st tw htw hcss hpos]
  split
  · exact ⟨_, rfl⟩
  · exact ⟨_, rfl⟩

/-- Witness for C6: the single word `"Hi"` under a never-overflowing
environment; the search returns `0` and the display becomes
`"" ++ "…"`. -/
theorem truncation_appends_marker_witness :
    tokensOpt settings stHi.text = some ["Hi"] ∧
    stHi.cssOverflow = "hidden" ∧
    (index_for_best_fit (overflowOracle envNever settings stHi.text)
      ["Hi"] none 0 (((["Hi"] : List String).length : Int) - 1)).1 = 0 ∧
    ∃ p, (ellipterrificOne envNever settings stHi).1.text =
      p ++ settings.ellipsis_string := by
  have htw : tokensOpt settings stHi.text = some ["Hi"] := by decide
  have hk : (index_for_best_fit (overflowOracle envNever settings stHi.text)
      ["Hi"] none 0 (((["Hi"] : List String).length : Int) - 1)).1 = 0 := by
    rw [bestFit_guess_zero (overflowOracle envNever settings stHi.text)
      ["Hi"] none 0 (((["Hi"] : List String).length : Int) - 1)
      (by norm_num) (by decide)]
  exact ⟨htw, rfl, hk,
    truncation_appends_marker envNever settings stHi ["Hi"] htw rfl 0 hk
      (by decide) (by decide)⟩

/-- C1 (amended): for every token sequence of at least two tokens and
every monotonic overflow oracle, whenever the fit search (invoked as the
plugin does, with window `0 .. len - 1`) returns a non-sentinel value
`k`, the prefix of the first `k` tokens does not overflow and the prefix
of the first `k + 1` tokens does overflow (or `k` equals the token
count).  For a single token the search returns `0` without consulting
the oracle, which breaks the property (see the counterexample). -/
theorem best_fit_nonsentinel_is_boundary (o : List String → Bool)
    (tw : List String) (h2 : 2 ≤ tw.length)
    (hmono : MonotonicOracle o tw) (k : Int)
    (hk : (index_for_best_fit o tw none 0 ((tw.length : Int) - 1)).1 = k)
    (hns : k ≠ -1) :
    o (tw.take k.toNat) = false ∧
      (o (tw.take (k.toNat + 1)) = true ∨ k = (tw.length : Int)) := by
  have hne : ¬((tw.length : Int) - 1) < 0 := by omega
  rw [bestFit_none_eq o tw 0 _ hne] at hk
  have hb := bestFit_boundary o tw
    (some (0 + (((tw.length : Int) - 1) - 0 + 1) / 2)) 0
    ((tw.length : Int) - 1) k (le_refl 0)
    (Or.inr (by simp only [Option.getD_some]; omega)) hk hns
  exact ⟨hb.2.1, Or.inl hb.2.2⟩

/-- Witness for C1 (amended): two tokens, overflow exactly from two
words on; the search returns the boundary `1`. -/
theorem best_fit_nonsentinel_is_boundary_witness :
    2 ≤ (["a", "b"] : List String).length ∧
    MonotonicOracle oracleAtTwo ["a", "b"] ∧
    (index_for_best_fit oracleAtTwo ["a", "b"] none 0
      (((["a", "b"] : List String).length : Int) - 1)).1 = 1 ∧
    (1 : Int) ≠ -1 ∧
    (oracleAtTwo ((["a", "b"] : List String).take (1 : Int).toNat) = false ∧
      (oracleAtTwo ((["a", "b"] : List String).take ((1 : Int).toNat + 1)) =
        true ∨ (1 : Int) = ((["a", "b"] : List String).length : Int))) := by
  have hk : (index_for_best_fit oracleAtTwo ["a", "b"] none 0
      (((["a", "b"] : List String).length : Int) - 1)).1 = 1 := by
    rw [index_for_best_fit]
    norm_num [jsSlice0, oracleAtTwo]
  exact ⟨by decide, by decide, hk, by decide,
    best_fit_nonsentinel_is_boundary oracleAtTwo ["a", "b"] (by decide)
      (by decide) 1 hk (by decide)⟩

/-- C1 fails as stated: on the single-token sequence `["Hi"]` with the
always-false oracle (which is monotonic), the plugin's initial search
returns the non-sentinel value `0`, yet the prefix of length `0 + 1`
does not overflow and `0` is not the token count. -/
theorem single_token_breaks_boundary :
    MonotonicOracle oracleNever ["Hi"] ∧
    (index_for_best_fit oracleNever ["Hi"] none 0
      (((["Hi"] : List String).length : Int) - 1)).1 = 0 ∧
    (0 : Int) ≠ -1 ∧
    ¬(oracleNever ((["Hi"] : List String).take ((0 : Int).toNat + 1)) =
        true ∨ (0 : Int) = ((["Hi"] : List String).length : Int)) := by
  have hk : (index_for_best_fit oracleNever ["Hi"] none 0
      (((["Hi"] : List String).length : Int) - 1)).1 = 0 := by
    rw [bestFit_guess_zero oracleNever ["Hi"] none 0
      (((["Hi"] : List String).length : Int) - 1) (by norm_num) (by decide)]
  exact ⟨by decide, hk, by decide, by decide⟩

/-- C2 (amended): if tokenization yields at least two tokens and,
under a monotonic overflow oracle, the full token sequence (with the
marker appended) does not overflow, the displayed text equals the
original text exactly — the search is exhausted and returns the
sentinel.  With exactly one token the search instead returns `0` and the
display becomes the bare marker (see the counterexample). -/
theorem noop_on_fit_two_tokens (env : RenderEnv) (opts : Options)
    (st : ElemState) (tw : List String)
    (htw : tokensOpt opts st.text = some tw) (h2 : 2 ≤ tw.length)
    (hmono : MonotonicOracle (overflowOracle env opts st.text) tw)
    (hfit : overflowOracle env opts st.text tw = false) :
    (ellipterrificOne env opts st).1.text = st.text := by
  by_cases hcss : st.cssOverflow = "hidden"
  · have hall : ∀ k : Nat, k ≤ tw.length →
        overflowOracle env opts st.text (tw.take k) = false :=
      mono_all_false _ tw hmono (by rw [List.take_length]; exact hfit)
    have hsent : (index_for_best_fit (overflowOracle env opts st.text) tw
        none 0 ((tw.length : Int) - 1)).1 = -1 := by
      have hne : ¬((tw.length : Int) - 1) < 0 := by omega
      rw [bestFit_none_eq _ tw 0 _ hne]
      exact bestFit_of_allFalse _ tw hall _ 0 _ (le_refl 0) (by omega)
        (Or.inr (by simp only [Option.getD_some]; omega))
    rw [ellipterrificOne_sentinel env opts st tw htw hcss hsent]
  · rw [ellipterrificOne_notHidden env opts st hcss]

/-- Witness for C2 (amended): two fitting words survive unchanged. -/
theorem noop_on_fit_two_tokens_witness :
    tokensOpt settings stAB.text = some ["a", "b"] ∧
    2 ≤ (["a", "b"] : List String).length ∧
    overflowOracle envNever settings stAB.text ["a", "b"] = false ∧
    (ellipterrificOne envNever settings stAB).1.text = stAB.text :=
  ⟨by decide, by decide, by decide,
    noop_on_fit_two_tokens envNever settings stAB ["a", "b"] (by decide)
      (by decide) (by decide) (by decide)⟩

/-- C2 fails as stated: under a never-overflowing environment (so the
full sequence with the marker appended does not overflow, and the
induced oracle is monotonic), the plugin replaces the single-token text
`"Hi"` by the bare marker `"…"` instead of leaving it unchanged. -/
theorem noop_on_fit_fails_single_token :
    tokensOpt settings stHi.text = some ["Hi"] ∧
    overflowOracle envNever settings stHi.text ["Hi"] = false ∧
    MonotonicOracle (overflowOracle envNever settings stHi.text) ["Hi"] ∧
    (ellipterrificOne envNever settings stHi).1.text = "…" ∧
    stHi.text ≠ "…" := by
  have htw : tokensOpt settings stHi.text = some ["Hi"] := by decide
  have hk0 : (index_for_best_fit (overflowOracle envNever settings stHi.text)
      ["Hi"] none 0 (((["Hi"] : List String).length : Int) - 1)).1 = 0 := by
    rw [bestFit_guess_zero (overflowOracle envNever settings stHi.text)
      ["Hi"] none 0 (((["Hi"] : List String).length : Int) - 1)
      (by norm_num) (by decide)]
  have hpos : (index_for_best_fit (overflowOracle envNever settings stHi.text)
      ["Hi"] none 0 (((["Hi"] : List String).length : Int) - 1)).1 > -1 := by
    rw [hk0]; norm_num
  have htext := ellipterrificOne_trunc envNever settings stHi ["Hi"] htw
    rfl hpos
  rw [hk0] at htext
  refine ⟨htw, by decide, by decide, ?_, by decide⟩
  rw [htext]
  decide
